import Mathlib

/-!
Verification of the condition/query-construction core of `spanner_orm`
(`spanner_orm/condition.py`), shallowly embedded in Lean.

Python conditions are mutable objects with a `model` slot set by `bind`;
here a condition is an immutable pair of its variant data and an optional
bound model, and `bind` returns the updated condition in `Except` (Python
exceptions become `Except.error`).
-/

namespace SpannerOrm

/-- `Segment` enum: the segment of the SQL query that a Condition belongs to. -/
inductive Segment : Type where
  | WHERE
  | ORDER_BY
  | LIMIT
  | JOIN
deriving DecidableEq, Repr

/-- `OrderType` enum (`ASC = 1`, `DESC = 2`). -/
inductive OrderType : Type where
  | ASC
  | DESC
deriving DecidableEq, Repr

/-- Python's `OrderType.name` (`'ASC'` / `'DESC'`). -/
def OrderType.name : OrderType → String
  | .ASC => "ASC"
  | .DESC => "DESC"

/-- Modelled from the spec: `field.py` is not among the sources; the spec says a
field descriptor exposes a "logical field type". The concrete logical types are
taken from the uses visible in the sources (`field.String`, `field.Integer`). -/
inductive FieldType : Type where
  | string
  | integer
  | boolean
  | timestamp
deriving DecidableEq, Repr

/-- Modelled from the spec: the wire type descriptors (`type_pb2.Type`) are
external; the spec distinguishes a scalar wire-type descriptor and a list/array
wire-type descriptor, each determined by the logical field type.
`LimitCondition` constructs `type_pb2.Type(code=INT64)` directly, which is the
scalar descriptor of the integer logical type. -/
inductive GrpcType : Type where
  | scalar (t : FieldType)
  | array (t : FieldType)
deriving DecidableEq, Repr

/-- Python values that flow through conditions (a fragment of the dynamic
Python value universe: `None`, ints, strings, lists, `OrderType` members). -/
inductive Value : Type where
  | vNull
  | vInt (n : Int)
  | vStr (s : String)
  | vList (vs : List Value)
  | vOrder (o : OrderType)

/-- Python `value is None`. -/
def Value.isNull : Value → Bool
  | .vNull => true
  | _ => false

/-- Python `isinstance(value, int)`. -/
def Value.isInt : Value → Bool
  | .vInt _ => true
  | _ => false

/-- Python `isinstance(value, list)`. -/
def Value.isList : Value → Bool
  | .vList _ => true
  | _ => false

/-- Python `isinstance(value, OrderType)`. -/
def Value.isOrderType : Value → Bool
  | .vOrder _ => true
  | _ => false

/-- A loose rendering of Python `str(value)`, used only inside error message
strings (list elements are abstracted). -/
def Value.str : Value → String
  | .vNull => "None"
  | .vInt n => toString n
  | .vStr s => s
  | .vList _ => "[...]"
  | .vOrder o => "OrderType." ++ o.name

/-- Exceptions raised by the condition core: `error.SpannerError` with its
message, Python `assert` failures, and dictionary `KeyError`s. -/
inductive Err : Type where
  | spannerError (msg : String)
  | assertionError
  | keyError
deriving DecidableEq, Repr

/-- Modelled from the spec: `field.py` is external to the sources; the spec's
field descriptor exposes a logical field type and a nullability flag. -/
structure Field : Type where
  field_type : FieldType
  nullable : Bool
deriving DecidableEq, Repr

/-- Modelled from the spec: the field descriptor's `validate(value)` "fails if
the value's type/shape is incompatible" with the logical field type, and
"validation for null-aware variants does not reject an absent value" (the
null-aware `_validate` passes the absent value straight to this function), so
an absent value is accepted. -/
def Field.validate (f : Field) (v : Value) : Bool :=
  match v with
  | .vNull => true
  | .vInt _ => decide (f.field_type = FieldType.integer)
  | .vStr _ => decide (f.field_type = FieldType.string)
  | .vList _ => false
  | .vOrder _ => false

/-- Modelled from the spec: the scalar wire-type descriptor of a field. -/
def Field.grpc_type (f : Field) : GrpcType :=
  GrpcType.scalar f.field_type

/-- Modelled from the spec: the list/array wire-type descriptor of a field. -/
def Field.grpc_list_type (f : Field) : GrpcType :=
  GrpcType.array f.field_type

/-- Operator-carrying tags for the four plain scalar comparisons. -/
inductive CompOp : Type where
  | GreaterThan
  | GreaterThanOrEqual
  | LessThan
  | LessThanOrEqual
deriving DecidableEq, Repr

/-- The `operator()` static method of each plain comparison subclass. -/
def CompOp.operator : CompOp → String
  | .GreaterThan => ">"
  | .GreaterThanOrEqual => ">="
  | .LessThan => "<"
  | .LessThanOrEqual => "<="

/-- Tags for the list-membership comparisons. -/
inductive ListOp : Type where
  | InList
  | NotInList
deriving DecidableEq, Repr

/-- The `operator()` static method of each list comparison subclass. -/
def ListOp.operator : ListOp → String
  | .InList => "IN"
  | .NotInList => "NOT IN"

/-- Tags for the null-aware comparisons (`EqualityCondition`,
`InequalityCondition`). -/
inductive NullOp : Type where
  | Equality
  | Inequality
deriving DecidableEq, Repr

/-- The `operator()` static method of the null-aware comparison subclasses. -/
def NullOp.operator : NullOp → String
  | .Equality => "="
  | .Inequality => "!="

/-- The `nullable_operator()` method of the null-aware comparison
subclasses. -/
def NullOp.nullable_operator : NullOp → String
  | .Equality => "IS"
  | .Inequality => "IS NOT"

mutual

/-- Modelled from the spec: the collaborator contract of a bound model —
`table()`, `column_prefix()` (here `aliasName`, see the naming note below),
`schema()` (mapping from column name to field descriptor) and `relations()`
(mapping from relation name to relation descriptor). Mappings are modelled as
association lists. The name `aliasName` stands for the model's
`column_prefix()` accessor (the alias string used in generated SQL). -/
inductive Model : Type where
  | mk (table : String) (aliasName : String)
      (schema : List (String × Field))
      (relations : List (String × Relation))

/-- Modelled from the spec: a relation descriptor exposes its own join
conditions (ordered sequence) and its destination model. -/
inductive Relation : Type where
  | mk (conditions : List Condition) (destination : Model)

/-- A condition instance: its variant data plus the `self.model` slot
(`None` until `bind` succeeds). -/
inductive Condition : Type where
  | mk (data : CondData) (model : Option Model)

/-- The variant-specific data of each concrete `Condition` subclass.
`IncludesCondition` additionally carries its `self.relation` slot (set at
bind time, `None` before). -/
inductive CondData : Type where
  | ColumnsEqualCondition (column : String) (destination_model : Model)
      (destination_column : String)
  | IncludesCondition (name : String) (conditions : List Condition)
      (relation : Option Relation)
  | LimitCondition (limit : Int) (offset : Int)
  | OrderByCondition (orderings : List (String × OrderType))
  | ComparisonCondition (op : CompOp) (column : String) (value : Value)
  | ListComparisonCondition (op : ListOp) (column : String) (value : Value)
  | NullableComparisonCondition (op : NullOp) (column : String) (value : Value)

end

/-- `model.table()`. -/
def Model.table : Model → String
  | .mk t _ _ _ => t

/-- `model.column_prefix()` (see the naming note on `Model`). -/
def Model.aliasName : Model → String
  | .mk _ a _ _ => a

/-- `model.schema()`. -/
def Model.schema : Model → List (String × Field)
  | .mk _ _ s _ => s

/-- `model.relations()`. -/
def Model.relations : Model → List (String × Relation)
  | .mk _ _ _ r => r

/-- `relation.conditions()`. -/
def Relation.conditions : Relation → List Condition
  | .mk c _ => c

/-- `relation.destination()`. -/
def Relation.destination : Relation → Model
  | .mk _ d => d

/-- The variant data of a condition instance. -/
def Condition.data : Condition → CondData
  | .mk d _ => d

/-- The `self.model` slot of a condition instance. -/
def Condition.model : Condition → Option Model
  | .mk _ m => m

mutual

/-- The `_validate(model)` hook of each variant, as a boolean (all failures
inside `_validate` are Python `assert` failures, and the modelled
`Field.validate` likewise only asserts):
* `ColumnsEqualCondition`: both columns exist in their schemas and the two
  fields agree on logical type and nullability;
* `IncludesCondition`: the relation name is in `model.relations()`, and every
  extra condition is `_validate`d against the relation's destination model;
* `LimitCondition`: no-op;
* `OrderByCondition`: every ordering column is in the schema;
* `ComparisonCondition`: column in schema, value not `None`, value passes the
  field's validator;
* `ListComparisonCondition`: value is a list, column in schema, every element
  passes the field's validator;
* `NullableComparisonCondition`: column in schema, value passes the field's
  validator. -/
def CondData.validateOf : CondData → Model → Bool
  | .ColumnsEqualCondition column destination_model destination_column, m =>
    match List.lookup column (Model.schema m),
        List.lookup destination_column (Model.schema destination_model) with
    | some origin, some dest =>
      decide (Field.field_type origin = Field.field_type dest ∧
        Field.nullable origin = Field.nullable dest)
    | _, _ => false
  | .IncludesCondition name conds _, m =>
    match List.lookup name (Model.relations m) with
    | some rel => validateList conds (Relation.destination rel)
    | none => false
  | .LimitCondition _ _, _ => true
  | .OrderByCondition orderings, m =>
    orderings.all (fun p => (List.lookup p.1 (Model.schema m)).isSome)
  | .ComparisonCondition _ column value, m =>
    match List.lookup column (Model.schema m) with
    | some f => !value.isNull && Field.validate f value
    | none => false
  | .ListComparisonCondition _ column value, m =>
    match value, List.lookup column (Model.schema m) with
    | .vList vs, some f => vs.all (Field.validate f)
    | _, _ => false
  | .NullableComparisonCondition _ column value, m =>
    match List.lookup column (Model.schema m) with
    | some f => Field.validate f value
    | none => false
termination_by structural d _ => d

/-- The loop in `IncludesCondition._validate`: each extra condition's
`_validate` run against the destination model. -/
def validateList : List Condition → Model → Bool
  | [], _ => true
  | .mk d _ :: rest, m => CondData.validateOf d m && validateList rest m
termination_by structural l _ => l

end

/-- Python `sep.join(parts)`: the separator between each adjacent pair. -/
def joinSep (sep : String) : List String → String
  | [] => ""
  | [a] => a
  | a :: rest => a ++ sep ++ joinSep sep rest

/-- The `_sql()` hook of each variant (Python `'...'.format(...)` spelled out
as string concatenation). `if self.offset:` is the Python truthiness test of
an integer, i.e. `offset ≠ 0`. -/
def CondData.sqlOf : CondData → Model → String
  | .ColumnsEqualCondition column destination_model destination_column, m =>
    Model.table m ++ "." ++ column ++ " = " ++
      Model.table destination_model ++ "." ++ destination_column
  | .IncludesCondition _ _ _, _ => ""
  | .LimitCondition _ offset, _ =>
    if offset ≠ 0 then "LIMIT @limit OFFSET @offset" else "LIMIT @limit"
  | .OrderByCondition orderings, m =>
    "ORDER BY " ++ joinSep ", "
      (orderings.map (fun p => Model.aliasName m ++ "." ++ p.1 ++ " " ++ p.2.name))
  | .ComparisonCondition op column _, m =>
    Model.aliasName m ++ "." ++ column ++ " " ++ op.operator ++ " @" ++ column
  | .ListComparisonCondition op column _, m =>
    Model.aliasName m ++ "." ++ column ++ " " ++ op.operator ++
      " UNNEST(@" ++ column ++ ")"
  | .NullableComparisonCondition op column value, m =>
    if value.isNull then
      Model.aliasName m ++ "." ++ column ++ " " ++ op.nullable_operator ++ " NULL"
    else
      Model.aliasName m ++ "." ++ column ++ " " ++ op.operator ++ " @" ++ column

/-- The `_params()` hook of each variant (dicts as association lists in
insertion order). -/
def CondData.paramsOf : CondData → Model → List (String × Value)
  | .ColumnsEqualCondition _ _ _, _ => []
  | .IncludesCondition _ _ _, _ => []
  | .LimitCondition limit offset, _ =>
    ("limit", Value.vInt limit) ::
      (if offset ≠ 0 then [("offset", Value.vInt offset)] else [])
  | .OrderByCondition _, _ => []
  | .ComparisonCondition _ column value, _ => [(column, value)]
  | .ListComparisonCondition _ column value, _ => [(column, value)]
  | .NullableComparisonCondition _ column value, _ =>
    if value.isNull then [] else [(column, value)]

/-- The `_types()` hook of each variant. The dictionary lookup
`self.model.schema()[self.column]` raises `KeyError` when the column is
absent (unreachable after a successful `bind`). -/
def CondData.typesOf : CondData → Model → Except Err (List (String × GrpcType))
  | .ColumnsEqualCondition _ _ _, _ => .ok []
  | .IncludesCondition _ _ _, _ => .ok []
  | .LimitCondition _ offset, _ =>
    .ok (("limit", GrpcType.scalar FieldType.integer) ::
      (if offset ≠ 0 then [("offset", GrpcType.scalar FieldType.integer)] else []))
  | .OrderByCondition _, _ => .ok []
  | .ComparisonCondition _ column _, m =>
    match List.lookup column (Model.schema m) with
    | some f => .ok [(column, f.grpc_type)]
    | none => .error .keyError
  | .ListComparisonCondition _ column _, m =>
    match List.lookup column (Model.schema m) with
    | some f => .ok [(column, f.grpc_list_type)]
    | none => .error .keyError
  | .NullableComparisonCondition _ column value, m =>
    if value.isNull then .ok []
    else
      match List.lookup column (Model.schema m) with
      | some f => .ok [(column, f.grpc_type)]
      | none => .error .keyError

/-- The `segment()` static method of each variant: a constant independent of
the instance's bound state. -/
def CondData.segment : CondData → Segment
  | .ColumnsEqualCondition _ _ _ => .WHERE
  | .IncludesCondition _ _ _ => .JOIN
  | .LimitCondition _ _ => .LIMIT
  | .OrderByCondition _ => .ORDER_BY
  | .ComparisonCondition _ _ _ => .WHERE
  | .ListComparisonCondition _ _ _ => .WHERE
  | .NullableComparisonCondition _ _ _ => .WHERE

/-- `condition.segment()` — requires no binding. -/
def Condition.segment (c : Condition) : Segment :=
  CondData.segment (Condition.data c)

/-- The variant data after a successful `bind(model)`:
`IncludesCondition.bind` additionally resolves
`self.relation = self.model.relations()[self.name]`; every other variant's
data is untouched. -/
def CondData.bound : CondData → Model → CondData
  | .IncludesCondition name conds _, m =>
    .IncludesCondition name conds (List.lookup name (Model.relations m))
  | d, _ => d

/-- `condition.bind(model)`: run `_validate(model)` (an assertion failure
leaves the condition unchanged), then store the model back-reference (and,
for `IncludesCondition`, the resolved relation). -/
def Condition.bind (c : Condition) (m : Model) : Except Err Condition :=
  match c with
  | .mk d _ =>
    if CondData.validateOf d m then
      .ok (.mk (CondData.bound d m) (some m))
    else
      .error .assertionError

/-- `condition.sql()`: unbound use raises `SpannerError`; otherwise delegates
to the variant's `_sql()`. -/
def Condition.sql (c : Condition) : Except Err String :=
  match c with
  | .mk _ none => .error (.spannerError "Condition must be bound before sql is called")
  | .mk d (some m) => .ok (CondData.sqlOf d m)

/-- `condition.params()`: unbound use raises `SpannerError`; otherwise
delegates to the variant's `_params()`. -/
def Condition.params (c : Condition) : Except Err (List (String × Value)) :=
  match c with
  | .mk _ none => .error (.spannerError "Condition must be bound before params is called")
  | .mk d (some m) => .ok (CondData.paramsOf d m)

/-- `condition.types()`: unbound use raises `SpannerError`; otherwise
delegates to the variant's `_types()`. -/
def Condition.types (c : Condition) : Except Err (List (String × GrpcType)) :=
  match c with
  | .mk _ none => .error (.spannerError "Condition must be bound before types is called")
  | .mk d (some m) => CondData.typesOf d m

/-- `IncludesCondition.conditions()`: guarded by the `self.relation` slot;
returns `self.relation.conditions() + self._conditions`. Only
`IncludesCondition` defines this method (`keyError` stands in for the
`AttributeError` a non-includes condition would raise). -/
def Condition.conditions (c : Condition) : Except Err (List Condition) :=
  match Condition.data c with
  | .IncludesCondition _ conds rel =>
    match rel with
    | some r => .ok (Relation.conditions r ++ conds)
    | none => .error (.spannerError "Condition must be bound before conditions is called")
  | _ => .error .keyError

/-! Factory functions (the public DSL). Constructors that perform eager type
checks (`LimitCondition.__init__`, `OrderByCondition.__init__`) return
`Except`; the rest cannot fail. -/

/-- `columns_equal(origin_column, dest_model, dest_column)`. -/
def columns_equal (origin_column : String) (dest_model : Model)
    (dest_column : String) : Condition :=
  .mk (.ColumnsEqualCondition origin_column dest_model dest_column) none

/-- `equal_to(column, value)`. -/
def equal_to (column : String) (value : Value) : Condition :=
  .mk (.NullableComparisonCondition .Equality column value) none

/-- `greater_than(column, value)`. -/
def greater_than (column : String) (value : Value) : Condition :=
  .mk (.ComparisonCondition .GreaterThan column value) none

/-- `greater_than_or_equal_to(column, value)`. -/
def greater_than_or_equal_to (column : String) (value : Value) : Condition :=
  .mk (.ComparisonCondition .GreaterThanOrEqual column value) none

/-- `includes(relation, conditions=None)` (`conditions or []` maps `None` and
`[]` alike to the empty list, so the argument is modelled as a plain list). -/
def includes (relation : String) (conditions : List Condition := []) : Condition :=
  .mk (.IncludesCondition relation conditions none) none

/-- `in_list(column, value)`. -/
def in_list (column : String) (value : Value) : Condition :=
  .mk (.ListComparisonCondition .InList column value) none

/-- `less_than(column, value)`. -/
def less_than (column : String) (value : Value) : Condition :=
  .mk (.ComparisonCondition .LessThan column value) none

/-- `less_than_or_equal_to(column, value)`. -/
def less_than_or_equal_to (column : String) (value : Value) : Condition :=
  .mk (.ComparisonCondition .LessThanOrEqual column value) none

/-- `limit(value, offset=0)`: `LimitCondition.__init__` checks
`isinstance(value, int)` for limit then offset, raising `SpannerError`
eagerly, before any binding. -/
def limit (value : Value) (offset : Value := .vInt 0) : Except Err Condition :=
  if !value.isInt then
    .error (.spannerError (value.str ++ " is not of type int"))
  else if !offset.isInt then
    .error (.spannerError (offset.str ++ " is not of type int"))
  else
    match value, offset with
    | .vInt l, .vInt o => .ok (.mk (.LimitCondition l o) none)
    | _, _ => .error .assertionError

/-- `not_equal_to(column, value)`. -/
def not_equal_to (column : String) (value : Value) : Condition :=
  .mk (.NullableComparisonCondition .Inequality column value) none

/-- `not_greater_than(column, value)` — alias for `less_than_or_equal_to`. -/
def not_greater_than (column : String) (value : Value) : Condition :=
  less_than_or_equal_to column value

/-- `not_in_list(column, value)`. -/
def not_in_list (column : String) (value : Value) : Condition :=
  .mk (.ListComparisonCondition .NotInList column value) none

/-- `not_less_than(column, value)` — alias for `greater_than_or_equal_to`. -/
def not_less_than (column : String) (value : Value) : Condition :=
  greater_than_or_equal_to column value

/-- The eager loop in `OrderByCondition.__init__`: each ordering's direction
must be an `OrderType` member (checked left to right, raising `SpannerError`
at the first offender); on success the checked orderings are returned. -/
def checkOrderings : List (String × Value) → Except Err (List (String × OrderType))
  | [] => .ok []
  | (column, .vOrder o) :: rest =>
    (checkOrderings rest).map (fun os => (column, o) :: os)
  | (_, v) :: _ => .error (.spannerError (v.str ++ " is not of type OrderType"))

/-- `order_by(*orderings)`. -/
def order_by (orderings : List (String × Value)) : Except Err Condition :=
  (checkOrderings orderings).map (fun os => .mk (.OrderByCondition os) none)

/-!  Parameter placeholders.  `@name` placeholders are extracted from a SQL
fragment by a scanner: after each `@`, the maximal run of identifier
characters is one placeholder name. -/

/-- A character that may appear in a parameter placeholder name. -/
def identChar (c : Char) : Bool :=
  c.isAlphanum || c == '_'

/-- Scanner core: `acc = some l` means we are inside a placeholder whose
(reversed) characters so far are `l`. -/
def scanAux : List Char → Option (List Char) → List String
  | [], none => []
  | [], some acc => [String.mk acc.reverse]
  | c :: rest, none =>
    if c = '@' then scanAux rest (some []) else scanAux rest none
  | c :: rest, some acc =>
    if identChar c then scanAux rest (some (c :: acc))
    else
      String.mk acc.reverse ::
        (if c = '@' then scanAux rest (some []) else scanAux rest none)

/-- The set (as a list) of parameter placeholder names in a SQL fragment. -/
def placeholders (s : String) : List String :=
  scanAux s.data none

/-- A string free of the placeholder marker `@` (true of any sane table name
or column alias). -/
@[reducible] def atFree (s : String) : Prop :=
  '@' ∉ s.data

/-- A string made entirely of placeholder identifier characters (true of any
sane column name). -/
@[reducible] def identName (s : String) : Prop :=
  s.data.all identChar = true

/-- Well-formed model names: table name and alias contain no `@`, and every
schema column name is a plain identifier. -/
@[reducible] def wfModel (m : Model) : Prop :=
  atFree (Model.table m) ∧ atFree (Model.aliasName m) ∧
    ∀ p ∈ Model.schema m, identName p.1

/-- Well-formed names of the models embedded in a condition's own data (only
`ColumnsEqualCondition` carries one). -/
@[reducible] def wfData : CondData → Prop
  | .ColumnsEqualCondition _ dm _ => wfModel dm
  | _ => True

/-! Concrete test fixtures (used by witness theorems). -/

/-- A destination model for relation/join fixtures. -/
def childModel : Model :=
  Model.mk "ChildTable" "ChildTable"
    [("child_key", ⟨FieldType.string, false⟩), ("value", ⟨FieldType.integer, true⟩)]
    []

/-- The join condition the `children` relation of `parentModel` declares. -/
def childRelCond : Condition :=
  columns_equal "key" childModel "child_key"

/-- An origin model with a string key, integer columns and one relation. -/
def parentModel : Model :=
  Model.mk "ParentTable" "ParentTable"
    [("key", ⟨FieldType.string, false⟩), ("number", ⟨FieldType.integer, false⟩),
      ("maybe", ⟨FieldType.integer, true⟩)]
    [("children", Relation.mk [childRelCond] childModel)]

/-! Helper lemmas: strings, lookups and the placeholder scanner. -/

theorem data_append (a b : String) : (a ++ b).data = a.data ++ b.data := by
  cases a; cases b; rfl

theorem string_eq_of_data {a b : String} (h : a.data = b.data) : a = b := by
  cases a; cases b; exact congrArg String.mk h

theorem str_append_assoc (a b c : String) : a ++ b ++ c = a ++ (b ++ c) := by
  apply string_eq_of_data
  simp [data_append]

/-- Regroup a trailing literal: if `y ++ z` collapses to `w`, then
`x ++ y ++ z = x ++ w`. -/
theorem str_suffix_group {y z w : String} (x : String) (h : y ++ z = w) :
    x ++ y ++ z = x ++ w := by
  rw [str_append_assoc, h]

/-- Merge the spaces around an operator into a single literal:
`x ++ " " ++ op ++ " @" ++ col = x ++ opSp ++ col` whenever
`" " ++ op ++ " @" = opSp`. -/
theorem str_op_group {op opSp : String} (x col : String)
    (h : " " ++ op ++ " @" = opSp) :
    x ++ " " ++ op ++ " @" ++ col = x ++ opSp ++ col := by
  have h2 : x ++ " " ++ op ++ " @" = x ++ opSp := by
    rw [str_append_assoc, str_append_assoc, ← h, str_append_assoc]
  rw [h2]

theorem lookup_mem {β : Type} {k : String} {v : β} :
    ∀ {l : List (String × β)}, List.lookup k l = some v → (k, v) ∈ l := by
  intro l
  induction l with
  | nil => intro h; simp [List.lookup] at h
  | cons p rest ih =>
    intro h
    rw [List.lookup] at h
    cases hk : k == p.1 with
    | false =>
      rw [hk] at h
      exact List.mem_cons_of_mem _ (ih h)
    | true =>
      rw [hk] at h
      simp only [] at h
      have hkeq : k = p.1 := by simpa using hk
      have hv : p.2 = v := by injection h
      have hp : (k, v) = p := by
        cases p
        simp only [Prod.mk.injEq]
        exact ⟨hkeq, hv.symm⟩
      rw [hp]
      exact List.mem_cons_self _ _

theorem scanAux_append_clean (l r : List Char) (h : '@' ∉ l) :
    scanAux (l ++ r) none = scanAux r none := by
  induction l with
  | nil => rfl
  | cons c t ih =>
    rw [List.cons_append, scanAux, if_neg, ih (fun hm => h (List.mem_cons_of_mem _ hm))]
    intro hc
    exact h (hc ▸ List.mem_cons_self c t)

theorem scanAux_clean (l : List Char) (h : '@' ∉ l) : scanAux l none = [] := by
  have h2 := scanAux_append_clean l [] h
  rw [List.append_nil] at h2
  rw [h2]
  rfl

theorem scanAux_ident_acc (col : List Char) (h : col.all identChar = true) :
    ∀ (r acc : List Char),
      scanAux (col ++ r) (some acc) = scanAux r (some (col.reverse ++ acc)) := by
  induction col with
  | nil => intro r acc; simp
  | cons c t ih =>
    intro r acc
    rw [List.all_cons, Bool.and_eq_true] at h
    rw [List.cons_append, scanAux, if_pos (by simp [h.1]), ih h.2 r (c :: acc)]
    simp

/-- The next character (if any) cannot extend a placeholder name. -/
def headNotIdent : List Char → Prop
  | [] => True
  | c :: _ => identChar c = false

theorem scanAux_stop (r acc : List Char) (h : headNotIdent r) :
    scanAux r (some acc) = String.mk acc.reverse :: scanAux r none := by
  cases r with
  | nil => rfl
  | cons c rest =>
    rw [headNotIdent] at h
    simp [scanAux, h]

theorem not_at_of_ident {l : List Char} (h : l.all identChar = true) : '@' ∉ l := by
  intro hm
  have h2 := List.all_eq_true.mp h _ hm
  revert h2
  decide

theorem scan_one_placeholder (pre col r : List Char)
    (hpre : '@' ∉ pre) (hcol : col.all identChar = true) (hr : headNotIdent r) :
    scanAux (pre ++ '@' :: (col ++ r)) none = String.mk col :: scanAux r none := by
  rw [scanAux_append_clean _ _ hpre, scanAux, if_pos rfl,
    scanAux_ident_acc col hcol r [], scanAux_stop r _ hr]
  simp

theorem notMem_append {α : Type} {a : α} {l1 l2 : List α}
    (h1 : a ∉ l1) (h2 : a ∉ l2) : a ∉ l1 ++ l2 := by
  intro h
  rcases List.mem_append.mp h with h | h
  · exact h1 h
  · exact h2 h

theorem notMem_cons {α : Type} {a b : α} {l : List α}
    (hne : a ≠ b) (h : a ∉ l) : a ∉ b :: l := by
  intro hm
  rcases List.mem_cons.mp hm with h' | h'
  · exact hne h'
  · exact h h'

theorem atFree_append {a b : String} (ha : '@' ∉ a.data) (hb : '@' ∉ b.data) :
    '@' ∉ (a ++ b).data := by
  rw [data_append]
  exact notMem_append ha hb

theorem atFree_of_identName {s : String} (h : identName s) : '@' ∉ s.data := by
  intro hm
  have h2 := List.all_eq_true.mp h _ hm
  revert h2
  decide

/-- A fragment without `@` has no placeholders. -/
theorem placeholders_clean {s : String} (h : '@' ∉ s.data) :
    placeholders s = [] :=
  scanAux_clean _ h

/-- The single placeholder of `<alias>.<column> <operator> @<column>`. -/
theorem placeholders_comparison (al col opstr : String)
    (hal : '@' ∉ al.data) (hcol : identName col) (hop : '@' ∉ opstr.data) :
    placeholders (al ++ "." ++ col ++ " " ++ opstr ++ " @" ++ col) = [col] := by
  have hcolAt : '@' ∉ col.data := atFree_of_identName hcol
  have heq : (al ++ "." ++ col ++ " " ++ opstr ++ " @" ++ col).data
      = (al.data ++ '.' :: (col.data ++ ' ' :: (opstr.data ++ [' ']))) ++
        '@' :: (col.data ++ []) := by
    simp only [data_append, List.append_assoc, List.append_nil,
      List.cons_append, List.singleton_append]
    rfl
  rw [placeholders, heq]
  have hpre : '@' ∉ al.data ++ '.' :: (col.data ++ ' ' :: (opstr.data ++ [' '])) :=
    notMem_append hal (notMem_cons (by decide)
      (notMem_append hcolAt (notMem_cons (by decide)
        (notMem_append hop (by decide)))))
  exact scan_one_placeholder _ col.data [] hpre hcol trivial

/-- The single placeholder of
`<alias>.<column> <operator> UNNEST(@<column>)`. -/
theorem placeholders_list_comparison (al col opstr : String)
    (hal : '@' ∉ al.data) (hcol : identName col) (hop : '@' ∉ opstr.data) :
    placeholders (al ++ "." ++ col ++ " " ++ opstr ++ " UNNEST(@" ++ col ++ ")")
      = [col] := by
  have hcolAt : '@' ∉ col.data := atFree_of_identName hcol
  have heq : (al ++ "." ++ col ++ " " ++ opstr ++ " UNNEST(@" ++ col ++ ")").data
      = (al.data ++ '.' :: (col.data ++ ' ' :: (opstr.data ++
          [' ', 'U', 'N', 'N', 'E', 'S', 'T', '(']))) ++
        '@' :: (col.data ++ [')']) := by
    simp only [data_append, List.append_assoc, List.append_nil,
      List.cons_append, List.singleton_append]
    rfl
  rw [placeholders, heq]
  have hpre : '@' ∉ al.data ++ '.' :: (col.data ++ ' ' :: (opstr.data ++
      [' ', 'U', 'N', 'N', 'E', 'S', 'T', '('])) :=
    notMem_append hal (notMem_cons (by decide)
      (notMem_append hcolAt (notMem_cons (by decide)
        (notMem_append hop (by decide)))))
  have hr : headNotIdent [')'] := show identChar ')' = false by decide
  have hkey := scan_one_placeholder _ col.data [')'] hpre hcol hr
  rw [hkey]
  rfl

/-- The join of `@`-free parts by an `@`-free separator is `@`-free. -/
theorem joinSep_atFree (sep : String) (l : List String)
    (hsep : '@' ∉ sep.data) (h : ∀ s ∈ l, '@' ∉ s.data) :
    '@' ∉ (joinSep sep l).data := by
  induction l with
  | nil => intro hm; cases hm
  | cons a rest ih =>
    cases rest with
    | nil =>
      show '@' ∉ a.data
      exact h a (List.mem_cons_self _ _)
    | cons b brest =>
      show '@' ∉ (a ++ sep ++ joinSep sep (b :: brest)).data
      exact atFree_append (atFree_append (h a (List.mem_cons_self _ _)) hsep)
        (ih (fun s hs => h s (List.mem_cons_of_mem _ hs)))

/-- In a well-formed model, any column that a lookup finds is an
identifier-shaped name. -/
theorem identName_of_lookup {m : Model} {col : String} {f : Field}
    (hw : wfModel m) (h : List.lookup col (Model.schema m) = some f) :
    identName col :=
  hw.2.2 _ (lookup_mem h)

/-! Helper lemmas about the bind lifecycle. -/

theorem bind_eq_ok {d : CondData} {mo : Option Model} {m : Model} {c' : Condition} :
    Condition.bind (Condition.mk d mo) m = .ok c' ↔
      CondData.validateOf d m = true ∧
        c' = Condition.mk (CondData.bound d m) (some m) := by
  by_cases hv : CondData.validateOf d m = true
  · simp [Condition.bind, hv, eq_comm]
  · simp [Condition.bind, hv]

theorem sql_bound (d : CondData) (m : Model) :
    Condition.sql (Condition.mk d (some m)) = .ok (CondData.sqlOf d m) := rfl

theorem params_bound (d : CondData) (m : Model) :
    Condition.params (Condition.mk d (some m)) = .ok (CondData.paramsOf d m) := rfl

theorem types_bound (d : CondData) (m : Model) :
    Condition.types (Condition.mk d (some m)) = CondData.typesOf d m := rfl

theorem validateList_nil (m : Model) : validateList [] m = true := rfl

theorem validateList_cons (c : Condition) (rest : List Condition) (m : Model) :
    validateList (c :: rest) m =
      (CondData.validateOf (Condition.data c) m && validateList rest m) := by
  cases c with
  | mk d mo => rfl

/-- A validated comparison-family condition's column is present in the
schema, so `_types()`'s dictionary lookup cannot raise after `bind`. -/
theorem typesOf_isOk_of_validate {d : CondData} {m : Model}
    (h : CondData.validateOf d m = true) :
    ∃ t, CondData.typesOf (CondData.bound d m) m = Except.ok t := by
  cases d with
  | ColumnsEqualCondition a b c => exact ⟨[], rfl⟩
  | IncludesCondition a b c => exact ⟨[], rfl⟩
  | LimitCondition l o => exact ⟨_, rfl⟩
  | OrderByCondition os => exact ⟨[], rfl⟩
  | ComparisonCondition op col v =>
    simp only [CondData.validateOf] at h
    cases hl : List.lookup col (Model.schema m) with
    | none => rw [hl] at h; simp at h
    | some f =>
      refine ⟨[(col, f.grpc_type)], ?_⟩
      simp [CondData.bound, CondData.typesOf, hl]
  | ListComparisonCondition op col v =>
    simp only [CondData.validateOf] at h
    cases hl : List.lookup col (Model.schema m) with
    | none =>
      rw [hl] at h
      cases v <;> simp at h
    | some f =>
      refine ⟨[(col, f.grpc_list_type)], ?_⟩
      simp [CondData.bound, CondData.typesOf, hl]
  | NullableComparisonCondition op col v =>
    simp only [CondData.validateOf] at h
    cases hl : List.lookup col (Model.schema m) with
    | none => rw [hl] at h; simp at h
    | some f =>
      by_cases hn : v.isNull = true
      · exact ⟨[], by simp [CondData.bound, CondData.typesOf, hn]⟩
      · refine ⟨[(col, f.grpc_type)], ?_⟩
        simp [CondData.bound, CondData.typesOf, hn, hl]

/-! The claims. -/

/-- C9: for every cross-table equality condition built by `columns_equal`,
`segment()` returns `WHERE` (not `JOIN`), and this constant is independent of
whether the condition is bound (the bound slot is arbitrary here, and
`columns_equal` itself produces the unbound slot). -/
theorem columns_equal_segment_is_where (column : String) (dm : Model)
    (dc : String) (mo : Option Model) :
    Condition.segment (Condition.mk (.ColumnsEqualCondition column dm dc) mo) =
        Segment.WHERE ∧
      Condition.segment (Condition.mk (.ColumnsEqualCondition column dm dc) mo) ≠
        Segment.JOIN ∧
      Condition.segment (columns_equal column dm dc) = Segment.WHERE := by
  refine ⟨rfl, ?_, rfl⟩
  intro h
  have h2 : Segment.WHERE = Segment.JOIN := h
  cases h2

/-- C2: for every condition variant, calling `sql()`, `params()` or `types()`
while the bound-model slot is still empty (as produced by every factory, and
as left by a failed `bind`) raises the unbound-use `SpannerError`; after a
successful `bind(model)` all three return normally (so none raises it). -/
theorem unbound_use_raises_and_bound_use_does_not :
    (∀ d : CondData,
      Condition.sql (Condition.mk d none) =
        .error (.spannerError "Condition must be bound before sql is called") ∧
      Condition.params (Condition.mk d none) =
        .error (.spannerError "Condition must be bound before params is called") ∧
      Condition.types (Condition.mk d none) =
        .error (.spannerError "Condition must be bound before types is called")) ∧
    (∀ (c c' : Condition) (m : Model), Condition.bind c m = .ok c' →
      (∃ s, Condition.sql c' = .ok s) ∧
      (∃ p, Condition.params c' = .ok p) ∧
      (∃ t, Condition.types c' = .ok t)) := by
  constructor
  · intro d
    exact ⟨rfl, rfl, rfl⟩
  · intro c c' m h
    cases c with
    | mk d mo =>
      obtain ⟨hv, hc⟩ := bind_eq_ok.mp h
      subst hc
      refine ⟨⟨_, sql_bound _ _⟩, ⟨_, params_bound _ _⟩, ?_⟩
      obtain ⟨t, ht⟩ := typesOf_isOk_of_validate hv
      exact ⟨t, (types_bound _ _).trans ht⟩

/-- C2 witness: a `limit` condition raises the unbound-use error before
`bind` and yields values after a successful `bind` to a concrete model. -/
theorem unbound_use_witness :
    Condition.sql (Condition.mk (.LimitCondition 10 0) none) =
        .error (.spannerError "Condition must be bound before sql is called") ∧
      Condition.bind (Condition.mk (.LimitCondition 10 0) none) parentModel =
        .ok (Condition.mk (.LimitCondition 10 0) (some parentModel)) ∧
      (∃ s, Condition.sql (Condition.mk (.LimitCondition 10 0) (some parentModel)) = .ok s) := by
  refine ⟨(unbound_use_raises_and_bound_use_does_not.1 _).1, rfl, ?_⟩
  exact (unbound_use_raises_and_bound_use_does_not.2
    (Condition.mk (.LimitCondition 10 0) none)
    (Condition.mk (.LimitCondition 10 0) (some parentModel)) parentModel rfl).1

/-- C3: for the null-aware variants, binding `equal_to(column, None)` or
`not_equal_to(column, None)` succeeds for every model whose schema contains
the named column, whatever the column's nullability flag is. -/
theorem null_value_bind_succeeds (m : Model) (column : String)
    (h : (List.lookup column (Model.schema m)).isSome = true) :
    (∃ c', Condition.bind (equal_to column .vNull) m = .ok c') ∧
    (∃ c', Condition.bind (not_equal_to column .vNull) m = .ok c') := by
  obtain ⟨f, hf⟩ := Option.isSome_iff_exists.mp h
  have hval : ∀ op : NullOp,
      CondData.validateOf (.NullableComparisonCondition op column .vNull) m = true := by
    intro op
    simp [CondData.validateOf, hf, Field.validate]
  constructor
  · exact ⟨_, bind_eq_ok.mpr ⟨hval .Equality, rfl⟩⟩
  · exact ⟨_, bind_eq_ok.mpr ⟨hval .Inequality, rfl⟩⟩

/-- C3 witness: the non-nullable string column `key` of `parentModel` accepts
a null `equal_to`/`not_equal_to` bind. -/
theorem null_value_bind_witness :
    (List.lookup "key" (Model.schema parentModel)).isSome = true ∧
    (∃ c', Condition.bind (equal_to "key" .vNull) parentModel = .ok c') := by
  refine ⟨rfl, ?_⟩
  exact (null_value_bind_succeeds parentModel "key" rfl).1

/-- C4: a bound `equal_to(column, None)` yields SQL ending in `IS NULL`, a
bound `not_equal_to(column, None)` yields SQL ending in `IS NOT NULL`, both
with empty `params()`/`types()`; with a non-`None` value both fall back to
the default `<alias>.<column> <operator> @<column>` comparison with one-entry
`params()` and `types()`. -/
theorem null_aware_sql_and_fallback :
    (∀ (column : String) (m : Model) (c' : Condition),
      Condition.bind (equal_to column .vNull) m = .ok c' →
        (∃ pre, Condition.sql c' = .ok (pre ++ "IS NULL")) ∧
          Condition.params c' = .ok [] ∧ Condition.types c' = .ok []) ∧
    (∀ (column : String) (m : Model) (c' : Condition),
      Condition.bind (not_equal_to column .vNull) m = .ok c' →
        (∃ pre, Condition.sql c' = .ok (pre ++ "IS NOT NULL")) ∧
          Condition.params c' = .ok [] ∧ Condition.types c' = .ok []) ∧
    (∀ (column : String) (v : Value) (m : Model) (c' : Condition),
      v.isNull = false →
      Condition.bind (equal_to column v) m = .ok c' →
        Condition.sql c' =
            .ok (Model.aliasName m ++ "." ++ column ++ " = @" ++ column) ∧
          Condition.params c' = .ok [(column, v)] ∧
          (∃ f, List.lookup column (Model.schema m) = some f ∧
            Condition.types c' = .ok [(column, f.grpc_type)])) ∧
    (∀ (column : String) (v : Value) (m : Model) (c' : Condition),
      v.isNull = false →
      Condition.bind (not_equal_to column v) m = .ok c' →
        Condition.sql c' =
            .ok (Model.aliasName m ++ "." ++ column ++ " != @" ++ column) ∧
          Condition.params c' = .ok [(column, v)] ∧
          (∃ f, List.lookup column (Model.schema m) = some f ∧
            Condition.types c' = .ok [(column, f.grpc_type)])) := by
  have hnull : ∀ (op : NullOp) (column : String) (m : Model) (c' : Condition),
      Condition.bind (Condition.mk (.NullableComparisonCondition op column .vNull) none) m
          = .ok c' →
        Condition.sql c' =
            .ok (Model.aliasName m ++ "." ++ column ++ " " ++
              op.nullable_operator ++ " NULL") ∧
          Condition.params c' = .ok [] ∧ Condition.types c' = .ok [] := by
    intro op column m c' h
    obtain ⟨hv, hc⟩ := bind_eq_ok.mp h
    subst hc
    exact ⟨rfl, rfl, rfl⟩
  have hfall : ∀ (op : NullOp) (column : String) (v : Value) (m : Model) (c' : Condition),
      v.isNull = false →
      Condition.bind (Condition.mk (.NullableComparisonCondition op column v) none) m
          = .ok c' →
        Condition.sql c' =
            .ok (Model.aliasName m ++ "." ++ column ++ " " ++
              op.operator ++ " @" ++ column) ∧
          Condition.params c' = .ok [(column, v)] ∧
          (∃ f, List.lookup column (Model.schema m) = some f ∧
            Condition.types c' = .ok [(column, f.grpc_type)]) := by
    intro op column v m c' hn h
    obtain ⟨hv, hc⟩ := bind_eq_ok.mp h
    subst hc
    simp only [CondData.validateOf] at hv
    cases hl : List.lookup column (Model.schema m) with
    | none => rw [hl] at hv; simp at hv
    | some f =>
      refine ⟨?_, ?_, f, rfl, ?_⟩
      · rw [sql_bound]
        simp [CondData.bound, CondData.sqlOf, hn]
      · rw [params_bound]
        simp [CondData.bound, CondData.paramsOf, hn]
      · rw [types_bound]
        simp [CondData.bound, CondData.typesOf, hn, hl]
  refine ⟨?_, ?_, ?_, ?_⟩
  · intro column m c' h
    obtain ⟨hs, hp, ht⟩ := hnull .Equality column m c' h
    refine ⟨⟨Model.aliasName m ++ "." ++ column ++ " ", ?_⟩, hp, ht⟩
    rw [hs]
    exact congrArg Except.ok (str_suffix_group _
      (show NullOp.Equality.nullable_operator ++ " NULL" = "IS NULL" from rfl))
  · intro column m c' h
    obtain ⟨hs, hp, ht⟩ := hnull .Inequality column m c' h
    refine ⟨⟨Model.aliasName m ++ "." ++ column ++ " ", ?_⟩, hp, ht⟩
    rw [hs]
    exact congrArg Except.ok (str_suffix_group _
      (show NullOp.Inequality.nullable_operator ++ " NULL" = "IS NOT NULL" from rfl))
  · intro column v m c' hn h
    obtain ⟨hs, hp, ht⟩ := hfall .Equality column v m c' hn h
    refine ⟨?_, hp, ht⟩
    rw [hs]
    exact congrArg Except.ok (str_op_group _ column
      (show " " ++ NullOp.Equality.operator ++ " @" = " = @" from rfl))
  · intro column v m c' hn h
    obtain ⟨hs, hp, ht⟩ := hfall .Inequality column v m c' hn h
    refine ⟨?_, hp, ht⟩
    rw [hs]
    exact congrArg Except.ok (str_op_group _ column
      (show " " ++ NullOp.Inequality.operator ++ " @" = " != @" from rfl))

/-- C4 witness: on `parentModel`, `equal_to("maybe", None)` yields
`IS NULL` SQL with empty params/types, and `equal_to("number", 5)` falls back
to the default comparison. -/
theorem null_aware_sql_witness :
    (∃ c', Condition.bind (equal_to "maybe" .vNull) parentModel = .ok c' ∧
      ∃ pre, Condition.sql c' = .ok (pre ++ "IS NULL")) ∧
    (∃ c', Condition.bind (equal_to "number" (.vInt 5)) parentModel = .ok c' ∧
      Condition.params c' = .ok [("number", .vInt 5)]) := by
  constructor
  · refine ⟨Condition.mk (.NullableComparisonCondition .Equality "maybe" .vNull)
      (some parentModel), rfl, ?_⟩
    exact (null_aware_sql_and_fallback.1 "maybe" parentModel _ rfl).1
  · refine ⟨Condition.mk (.NullableComparisonCondition .Equality "number" (.vInt 5))
      (some parentModel), rfl, ?_⟩
    exact ((null_aware_sql_and_fallback.2.2.1 "number" (.vInt 5) parentModel _ rfl rfl)).2.1

/-- C7: a bound integer `limit`/`offset` condition emits `LIMIT @limit` with
only the `limit` key when the offset is zero (also when zero was supplied
explicitly), and `LIMIT @limit OFFSET @offset` with exactly the `limit` and
`offset` keys (mapped to the given values) when the offset is non-zero. -/
theorem limit_condition_behavior (l o : Int) (m : Model) :
    ∃ c0 c1, limit (.vInt l) (.vInt o) = .ok c0 ∧
      Condition.bind c0 m = .ok c1 ∧
      (o = 0 →
        Condition.sql c1 = .ok "LIMIT @limit" ∧
        Condition.params c1 = .ok [("limit", .vInt l)] ∧
        Condition.types c1 = .ok [("limit", GrpcType.scalar .integer)]) ∧
      (o ≠ 0 →
        Condition.sql c1 = .ok "LIMIT @limit OFFSET @offset" ∧
        Condition.params c1 = .ok [("limit", .vInt l), ("offset", .vInt o)] ∧
        Condition.types c1 = .ok [("limit", GrpcType.scalar .integer),
          ("offset", GrpcType.scalar .integer)]) := by
  refine ⟨Condition.mk (.LimitCondition l o) none,
    Condition.mk (.LimitCondition l o) (some m), rfl, rfl, ?_, ?_⟩
  · intro h0
    subst h0
    refine ⟨?_, ?_, ?_⟩ <;> rfl
  · intro hne
    refine ⟨?_, ?_, ?_⟩
    · rw [sql_bound]
      simp [CondData.sqlOf, hne]
    · rw [params_bound]
      simp [CondData.paramsOf, hne]
    · rw [types_bound]
      simp [CondData.typesOf, hne]

/-- C7 witness: `limit(10, offset=5)` bound to `parentModel` emits the
two-placeholder form; `limit(7)` (default offset `0`) emits only `LIMIT`. -/
theorem limit_condition_witness :
    (∃ c0 c1, limit (.vInt 10) (.vInt 5) = .ok c0 ∧
      Condition.bind c0 parentModel = .ok c1 ∧
      Condition.sql c1 = .ok "LIMIT @limit OFFSET @offset" ∧
      Condition.params c1 = .ok [("limit", .vInt 10), ("offset", .vInt 5)]) ∧
    (∃ c0 c1, limit (.vInt 7) (.vInt 0) = .ok c0 ∧
      Condition.bind c0 parentModel = .ok c1 ∧
      Condition.sql c1 = .ok "LIMIT @limit") := by
  constructor
  · obtain ⟨c0, c1, h0, h1, _, h2⟩ := limit_condition_behavior 10 5 parentModel
    have h3 := h2 (by decide)
    exact ⟨c0, c1, h0, h1, h3.1, h3.2.1⟩
  · obtain ⟨c0, c1, h0, h1, h2, _⟩ := limit_condition_behavior 7 0 parentModel
    exact ⟨c0, c1, h0, h1, (h2 rfl).1⟩

/-- The eager ordering-direction loop succeeds exactly when every direction
is an `OrderType` member. -/
theorem checkOrderings_ok_iff (os : List (String × Value)) :
    (∃ r, checkOrderings os = .ok r) ↔ ∀ p ∈ os, (p.2).isOrderType = true := by
  induction os with
  | nil => simp [checkOrderings]
  | cons p rest ih =>
    obtain ⟨col, v⟩ := p
    cases v with
    | vOrder ot =>
      constructor
      · rintro ⟨r, hr⟩ q hq
        rcases List.mem_cons.mp hq with h | h
        · rw [h]; rfl
        · refine ih.mp ?_ q h
          rw [checkOrderings] at hr
          cases hcr : checkOrderings rest with
          | ok r' => exact ⟨r', rfl⟩
          | error e => rw [hcr] at hr; simp [Except.map] at hr
      · intro hall
        obtain ⟨r, hr⟩ := ih.mpr (fun q hq => hall q (List.mem_cons_of_mem _ hq))
        refine ⟨(col, ot) :: r, ?_⟩
        rw [checkOrderings, hr]
        rfl
    | vNull => simp [checkOrderings, Value.isOrderType]
    | vInt n => simp [checkOrderings, Value.isOrderType]
    | vStr s => simp [checkOrderings, Value.isOrderType]
    | vList vs => simp [checkOrderings, Value.isOrderType]

/-- C8: `limit(value, offset)` fails at construction (before any bind) iff
either argument is not an `int`; `order_by(*orderings)` fails at construction
iff some ordering direction is not an `OrderType` member. With well-typed
arguments both succeed — and neither constructor takes a model at all. -/
theorem construction_type_checks :
    (∀ v o : Value, (∃ c, limit v o = .ok c) ↔ (v.isInt = true ∧ o.isInt = true)) ∧
    (∀ os : List (String × Value),
      (∃ c, order_by os = .ok c) ↔ ∀ p ∈ os, (p.2).isOrderType = true) := by
  constructor
  · intro v o
    cases v <;> cases o <;> simp [limit, Value.isInt]
  · intro os
    rw [order_by]
    constructor
    · rintro ⟨c, hc⟩
      refine (checkOrderings_ok_iff os).mp ?_
      cases hcr : checkOrderings os with
      | ok r => exact ⟨r, rfl⟩
      | error e => rw [hcr] at hc; simp [Except.map] at hc
    · intro h
      obtain ⟨r, hr⟩ := (checkOrderings_ok_iff os).mpr h
      rw [hr]
      exact ⟨_, rfl⟩

/-- C8 witness: `limit(10, "x")` is rejected at construction, while
`order_by(("key", ASC))` and `limit(10, 5)` are accepted. -/
theorem construction_type_checks_witness :
    (¬ ∃ c, limit (.vInt 10) (.vStr "x") = .ok c) ∧
    (∃ c, order_by [("key", .vOrder .ASC)] = .ok c) ∧
    (∃ c, limit (.vInt 10) (.vInt 5) = .ok c) := by
  refine ⟨?_, ?_, ?_⟩
  · intro h
    have h2 := (construction_type_checks.1 (.vInt 10) (.vStr "x")).mp h
    simp [Value.isInt] at h2
  · refine (construction_type_checks.2 [("key", .vOrder .ASC)]).mpr ?_
    intro p hp
    rcases List.mem_singleton.mp hp with h
    rw [h]
    rfl
  · exact (construction_type_checks.1 (.vInt 10) (.vInt 5)).mpr ⟨rfl, rfl⟩

/-- C5: `columns_equal(origin_column, dest_model, dest_column)` binds iff both
columns exist in their respective schemas with identical logical type and
identical nullability; a successful bind yields
`<table>.<column> = <other_table>.<other_column>` with empty params/types. -/
theorem columns_equal_bind_and_output :
    (∀ (m : Model) (col : String) (dm : Model) (dc : String),
      (∃ c', Condition.bind (columns_equal col dm dc) m = .ok c') ↔
        (∃ f g, List.lookup col (Model.schema m) = some f ∧
          List.lookup dc (Model.schema dm) = some g ∧
          f.field_type = g.field_type ∧ f.nullable = g.nullable)) ∧
    (∀ (m : Model) (col : String) (dm : Model) (dc : String) (c' : Condition),
      Condition.bind (columns_equal col dm dc) m = .ok c' →
        Condition.sql c' = .ok (Model.table m ++ "." ++ col ++ " = " ++
          Model.table dm ++ "." ++ dc) ∧
        Condition.params c' = .ok [] ∧ Condition.types c' = .ok []) := by
  constructor
  · intro m col dm dc
    have hbind : (∃ c', Condition.bind (columns_equal col dm dc) m = .ok c') ↔
        CondData.validateOf (.ColumnsEqualCondition col dm dc) m = true := by
      constructor
      · rintro ⟨c', h⟩
        exact (bind_eq_ok.mp h).1
      · intro hv
        exact ⟨_, bind_eq_ok.mpr ⟨hv, rfl⟩⟩
    rw [hbind]
    simp only [CondData.validateOf]
    cases h1 : List.lookup col (Model.schema m) with
    | none => simp
    | some f =>
      cases h2 : List.lookup dc (Model.schema dm) with
      | none => simp
      | some g => simp
  · intro m col dm dc c' h
    obtain ⟨hv, hc⟩ := bind_eq_ok.mp h
    subst hc
    exact ⟨rfl, rfl, rfl⟩

/-- C5 witness: matching string columns bind and emit the join SQL; an
integer/string pair is rejected at bind. -/
theorem columns_equal_witness :
    (∃ c', Condition.bind (columns_equal "key" childModel "child_key") parentModel
        = .ok c' ∧
      Condition.sql c' = .ok "ParentTable.key = ChildTable.child_key" ∧
      Condition.params c' = .ok []) ∧
    (¬ ∃ c', Condition.bind (columns_equal "number" childModel "child_key") parentModel
        = .ok c') := by
  constructor
  · refine ⟨Condition.mk (.ColumnsEqualCondition "key" childModel "child_key")
      (some parentModel), rfl, ?_, ?_⟩
    · exact (columns_equal_bind_and_output.2 parentModel "key" childModel
        "child_key" _ rfl).1
    · exact (columns_equal_bind_and_output.2 parentModel "key" childModel
        "child_key" _ rfl).2.1
  · intro h
    obtain ⟨f, g, h1, h2, h3, _⟩ :=
      (columns_equal_bind_and_output.1 parentModel "number" childModel "child_key").mp h
    have hf : Field.mk FieldType.integer false = f := by
      rw [show List.lookup "number" (Model.schema parentModel)
        = some (Field.mk FieldType.integer false) from rfl] at h1
      injection h1
    have hg : Field.mk FieldType.string false = g := by
      rw [show List.lookup "child_key" (Model.schema childModel)
        = some (Field.mk FieldType.string false) from rfl] at h2
      injection h2
    rw [← hf, ← hg] at h3
    cases h3

/-- C6: `includes(name, extras)` binds iff the relation name is in the
model's relation set and every extra condition validates against the
relation's destination model; after a successful bind, `conditions()` is the
relation's own conditions followed by the extras, in that order; and an extra
condition naming a column absent from the destination schema fails the bind
with no regard to the origin schema. -/
theorem includes_bind_and_conditions :
    (∀ (name : String) (extras : List Condition) (m : Model),
      (∃ c', Condition.bind (includes name extras) m = .ok c') ↔
        (∃ rel, List.lookup name (Model.relations m) = some rel ∧
          validateList extras (Relation.destination rel) = true)) ∧
    (∀ (name : String) (extras : List Condition) (m : Model) (c' : Condition)
        (rel : Relation),
      List.lookup name (Model.relations m) = some rel →
      Condition.bind (includes name extras) m = .ok c' →
        Condition.conditions c' = .ok (Relation.conditions rel ++ extras)) ∧
    (∀ (name col : String) (v : Value) (m : Model) (rel : Relation),
      List.lookup name (Model.relations m) = some rel →
      List.lookup col (Model.schema (Relation.destination rel)) = none →
        ¬ ∃ c', Condition.bind (includes name [greater_than col v]) m = .ok c') := by
  refine ⟨?_, ?_, ?_⟩
  · intro name extras m
    have hbind : (∃ c', Condition.bind (includes name extras) m = .ok c') ↔
        CondData.validateOf (.IncludesCondition name extras none) m = true := by
      constructor
      · rintro ⟨c', h⟩
        exact (bind_eq_ok.mp h).1
      · intro hv
        exact ⟨_, bind_eq_ok.mpr ⟨hv, rfl⟩⟩
    rw [hbind]
    simp only [CondData.validateOf]
    cases hrel : List.lookup name (Model.relations m) with
    | none => simp
    | some rel => simp
  · intro name extras m c' rel hrel h
    obtain ⟨hv, hc⟩ := bind_eq_ok.mp h
    subst hc
    simp [Condition.conditions, Condition.data, CondData.bound, hrel]
  · intro name col v m rel hrel hcol h
    obtain ⟨c', hc⟩ := h
    have hv := (bind_eq_ok.mp hc).1
    simp only [CondData.validateOf, hrel] at hv
    rw [validateList_cons, validateList_nil] at hv
    simp only [greater_than, Condition.data, CondData.validateOf, hcol] at hv
    simp at hv

/-- C6 witness: on `parentModel`, `includes("children", [extra])` binds when
the extra names a destination column and lists the relation's condition
first; it fails when the extra names a column present only on the origin. -/
theorem includes_witness :
    (∃ c', Condition.bind (includes "children" [equal_to "value" (.vInt 3)]) parentModel
        = .ok c' ∧
      Condition.conditions c' = .ok (childRelCond :: [equal_to "value" (.vInt 3)])) ∧
    (¬ ∃ c', Condition.bind (includes "children" [greater_than "number" (.vInt 1)])
        parentModel = .ok c') := by
  constructor
  · refine ⟨Condition.mk (.IncludesCondition "children" [equal_to "value" (.vInt 3)]
      (some (Relation.mk [childRelCond] childModel))) (some parentModel), rfl, ?_⟩
    exact includes_bind_and_conditions.2.1 "children" [equal_to "value" (.vInt 3)]
      parentModel _ (Relation.mk [childRelCond] childModel) rfl rfl
  · exact includes_bind_and_conditions.2.2 "children" "number" (.vInt 1) parentModel
      (Relation.mk [childRelCond] childModel) rfl rfl

/-- C10: a successful `includes(...).bind(model)` validates the extra
conditions but does not bind them: `conditions()` returns the very same
(still unbound) extras, whose `sql()`/`params()`/`types()` raise the
unbound-use error until bound separately. -/
theorem includes_does_not_bind_extras
    (name : String) (extras : List Condition) (m : Model) (c' : Condition)
    (h : Condition.bind (includes name extras) m = .ok c')
    (hunb : ∀ e ∈ extras, Condition.model e = none) :
    ∃ rel, List.lookup name (Model.relations m) = some rel ∧
      Condition.conditions c' = .ok (Relation.conditions rel ++ extras) ∧
      ∀ e ∈ extras, Condition.model e = none ∧
        Condition.sql e =
          .error (.spannerError "Condition must be bound before sql is called") ∧
        Condition.params e =
          .error (.spannerError "Condition must be bound before params is called") ∧
        Condition.types e =
          .error (.spannerError "Condition must be bound before types is called") := by
  obtain ⟨hv, hc⟩ := bind_eq_ok.mp h
  have hrel : ∃ rel, List.lookup name (Model.relations m) = some rel := by
    simp only [CondData.validateOf] at hv
    cases hr : List.lookup name (Model.relations m) with
    | none => rw [hr] at hv; simp at hv
    | some rel => exact ⟨rel, rfl⟩
  obtain ⟨rel, hr⟩ := hrel
  subst hc
  refine ⟨rel, hr, ?_, ?_⟩
  · simp [Condition.conditions, Condition.data, CondData.bound, hr]
  · intro e he
    have hm := hunb e he
    cases e with
    | mk d mo =>
      simp only [Condition.model] at hm
      subst hm
      exact ⟨rfl, rfl, rfl, rfl⟩

/-- C10 witness: after binding `includes("children", [equal_to("value", 3)])`
to `parentModel`, the extra is returned by `conditions()` unchanged and its
`sql()` still raises the unbound-use error. -/
theorem includes_extras_stay_unbound_witness :
    (∀ e ∈ [equal_to "value" (.vInt 3)], Condition.model e = none) ∧
    (∃ rel, List.lookup "children" (Model.relations parentModel) = some rel ∧
      Condition.conditions (Condition.mk (.IncludesCondition "children"
          [equal_to "value" (.vInt 3)]
          (some (Relation.mk [childRelCond] childModel))) (some parentModel)) =
        .ok (Relation.conditions rel ++ [equal_to "value" (.vInt 3)]) ∧
      ∀ e ∈ [equal_to "value" (.vInt 3)], Condition.model e = none ∧
        Condition.sql e =
          .error (.spannerError "Condition must be bound before sql is called") ∧
        Condition.params e =
          .error (.spannerError "Condition must be bound before params is called") ∧
        Condition.types e =
          .error (.spannerError "Condition must be bound before types is called")) := by
  have hunb : ∀ e ∈ [equal_to "value" (.vInt 3)], Condition.model e = none := by
    intro e he
    rw [List.mem_singleton.mp he]
    rfl
  exact ⟨hunb, includes_does_not_bind_extras "children" [equal_to "value" (.vInt 3)]
    parentModel _ rfl hunb⟩

/-- C1: for every condition variant, once bound to a well-formed model, the
set of `@` placeholder names appearing in `sql()` equals the key set of
`params()` and the key set of `types()`. Well-formedness only excludes `@`
inside table names/aliases and non-identifier characters inside column names,
which would corrupt any placeholder scan. -/
theorem sql_params_types_key_sets_agree
    (d : CondData) (mo : Option Model) (m : Model) (c' : Condition)
    (hw : wfModel m) (hd : wfData d)
    (hb : Condition.bind (Condition.mk d mo) m = .ok c') :
    ∃ s p t, Condition.sql c' = .ok s ∧ Condition.params c' = .ok p ∧
      Condition.types c' = .ok t ∧
      (∀ x, x ∈ placeholders s ↔ x ∈ p.map Prod.fst) ∧
      (∀ x, x ∈ placeholders s ↔ x ∈ t.map Prod.fst) := by
  obtain ⟨hv, hc⟩ := bind_eq_ok.mp hb
  subst hc
  cases d with
  | ColumnsEqualCondition col dm dc =>
    simp only [CondData.validateOf] at hv
    cases h1 : List.lookup col (Model.schema m) with
    | none => rw [h1] at hv; simp at hv
    | some f =>
      cases h2 : List.lookup dc (Model.schema dm) with
      | none => rw [h1, h2] at hv; simp at hv
      | some g =>
        have hplace : placeholders (CondData.sqlOf
            (CondData.bound (CondData.ColumnsEqualCondition col dm dc) m) m) = [] :=
          placeholders_clean (show '@' ∉ (Model.table m ++ "." ++ col ++ " = " ++
              Model.table dm ++ "." ++ dc).data from
            atFree_append (atFree_append (atFree_append (atFree_append
              (atFree_append (atFree_append hw.1 (by decide))
                (atFree_of_identName (identName_of_lookup hw h1)))
              (by decide)) hd.1) (by decide))
              (atFree_of_identName (identName_of_lookup hd h2)))
        refine ⟨_, [], [], sql_bound _ _, params_bound _ _, types_bound _ _,
          ?_, ?_⟩ <;> (intro x; rw [hplace]; simp)
  | IncludesCondition name conds rel =>
    have hplace : placeholders (CondData.sqlOf
        (CondData.bound (CondData.IncludesCondition name conds rel) m) m) = [] := rfl
    refine ⟨_, [], [], sql_bound _ _, params_bound _ _, types_bound _ _,
      ?_, ?_⟩ <;> (intro x; rw [hplace]; simp)
  | LimitCondition l o =>
    by_cases ho : o = 0
    · subst ho
      have hplace : placeholders (CondData.sqlOf
          (CondData.bound (CondData.LimitCondition l 0) m) m) = ["limit"] := rfl
      refine ⟨_, [("limit", Value.vInt l)],
        [("limit", GrpcType.scalar FieldType.integer)],
        sql_bound _ _, params_bound _ _, types_bound _ _, ?_, ?_⟩ <;>
        (intro x; rw [hplace]; simp)
    · have hsql : CondData.sqlOf (CondData.bound (CondData.LimitCondition l o) m) m
          = "LIMIT @limit OFFSET @offset" := by
        simp [CondData.bound, CondData.sqlOf, ho]
      have hpar : CondData.paramsOf (CondData.bound (CondData.LimitCondition l o) m) m
          = [("limit", Value.vInt l), ("offset", Value.vInt o)] := by
        simp [CondData.bound, CondData.paramsOf, ho]
      have htyp : CondData.typesOf (CondData.bound (CondData.LimitCondition l o) m) m
          = .ok [("limit", GrpcType.scalar FieldType.integer),
              ("offset", GrpcType.scalar FieldType.integer)] := by
        simp [CondData.bound, CondData.typesOf, ho]
      refine ⟨_, _, _, (sql_bound _ _).trans (congrArg Except.ok hsql),
        (params_bound _ _).trans (congrArg Except.ok hpar),
        (types_bound _ _).trans htyp, ?_, ?_⟩ <;>
        (intro x;
          rw [show placeholders "LIMIT @limit OFFSET @offset" = ["limit", "offset"]
            from rfl];
          simp)
  | OrderByCondition os =>
    simp only [CondData.validateOf] at hv
    have hplace : placeholders (CondData.sqlOf
        (CondData.bound (CondData.OrderByCondition os) m) m) = [] := by
      apply placeholders_clean
      show '@' ∉ ("ORDER BY " ++ joinSep ", "
        (os.map (fun p => Model.aliasName m ++ "." ++ p.1 ++ " " ++ p.2.name))).data
      apply atFree_append (by decide)
      apply joinSep_atFree _ _ (by decide)
      intro s hs
      obtain ⟨q, hq, hqs⟩ := List.mem_map.mp hs
      obtain ⟨qc, qo⟩ := q
      subst hqs
      have hqv : (List.lookup qc (Model.schema m)).isSome = true := by
        simpa using List.all_eq_true.mp hv (qc, qo) hq
      obtain ⟨f, hf⟩ := Option.isSome_iff_exists.mp hqv
      exact atFree_append (atFree_append (atFree_append
        (atFree_append hw.2.1 (by decide))
        (atFree_of_identName (identName_of_lookup hw hf))) (by decide))
        (show '@' ∉ (OrderType.name qo).data by cases qo <;> decide)
    refine ⟨_, [], [], sql_bound _ _, params_bound _ _, types_bound _ _,
      ?_, ?_⟩ <;> (intro x; rw [hplace]; simp)
  | ComparisonCondition op col v =>
    simp only [CondData.validateOf] at hv
    cases h1 : List.lookup col (Model.schema m) with
    | none => rw [h1] at hv; simp at hv
    | some f =>
      have hplace : placeholders (CondData.sqlOf
          (CondData.bound (CondData.ComparisonCondition op col v) m) m) = [col] :=
        placeholders_comparison (Model.aliasName m) col (CompOp.operator op)
          hw.2.1 (identName_of_lookup hw h1) (by cases op <;> decide)
      have htyp : CondData.typesOf
          (CondData.bound (CondData.ComparisonCondition op col v) m) m
          = .ok [(col, f.grpc_type)] := by
        simp [CondData.bound, CondData.typesOf, h1]
      refine ⟨_, [(col, v)], [(col, f.grpc_type)], sql_bound _ _, params_bound _ _,
        (types_bound _ _).trans htyp, ?_, ?_⟩ <;> (intro x; rw [hplace]; simp)
  | ListComparisonCondition op col v =>
    simp only [CondData.validateOf] at hv
    cases v with
    | vList vs =>
      cases h1 : List.lookup col (Model.schema m) with
      | none => rw [h1] at hv; simp at hv
      | some f =>
        have hplace : placeholders (CondData.sqlOf
            (CondData.bound (CondData.ListComparisonCondition op col (.vList vs)) m) m)
            = [col] :=
          placeholders_list_comparison (Model.aliasName m) col (ListOp.operator op)
            hw.2.1 (identName_of_lookup hw h1) (by cases op <;> decide)
        have htyp : CondData.typesOf
            (CondData.bound (CondData.ListComparisonCondition op col (.vList vs)) m) m
            = .ok [(col, f.grpc_list_type)] := by
          simp [CondData.bound, CondData.typesOf, h1]
        refine ⟨_, [(col, Value.vList vs)], [(col, f.grpc_list_type)],
          sql_bound _ _, params_bound _ _, (types_bound _ _).trans htyp, ?_, ?_⟩ <;>
          (intro x; rw [hplace]; simp)
    | vNull => simp at hv
    | vInt n => simp at hv
    | vStr s => simp at hv
    | vOrder o2 => simp at hv
  | NullableComparisonCondition op col v =>
    simp only [CondData.validateOf] at hv
    cases h1 : List.lookup col (Model.schema m) with
    | none => rw [h1] at hv; simp at hv
    | some f =>
      by_cases hn : v.isNull = true
      · have hsql : CondData.sqlOf
            (CondData.bound (CondData.NullableComparisonCondition op col v) m) m
            = Model.aliasName m ++ "." ++ col ++ " " ++
              op.nullable_operator ++ " NULL" := by
          simp [CondData.bound, CondData.sqlOf, hn]
        have hpar : CondData.paramsOf
            (CondData.bound (CondData.NullableComparisonCondition op col v) m) m
            = [] := by
          simp [CondData.bound, CondData.paramsOf, hn]
        have htyp : CondData.typesOf
            (CondData.bound (CondData.NullableComparisonCondition op col v) m) m
            = .ok [] := by
          simp [CondData.bound, CondData.typesOf, hn]
        have hplace : placeholders (Model.aliasName m ++ "." ++ col ++ " " ++
            op.nullable_operator ++ " NULL") = [] :=
          placeholders_clean (atFree_append (atFree_append (atFree_append
            (atFree_append (atFree_append hw.2.1 (by decide))
              (atFree_of_identName (identName_of_lookup hw h1)))
            (by decide))
            (show '@' ∉ (NullOp.nullable_operator op).data by cases op <;> decide))
            (by decide))
        refine ⟨_, [], [], (sql_bound _ _).trans (congrArg Except.ok hsql),
          (params_bound _ _).trans (congrArg Except.ok hpar),
          (types_bound _ _).trans htyp, ?_, ?_⟩ <;>
          (intro x; rw [hplace]; simp)
      · have hsql : CondData.sqlOf
            (CondData.bound (CondData.NullableComparisonCondition op col v) m) m
            = Model.aliasName m ++ "." ++ col ++ " " ++ op.operator ++ " @" ++ col := by
          simp [CondData.bound, CondData.sqlOf, hn]
        have hpar : CondData.paramsOf
            (CondData.bound (CondData.NullableComparisonCondition op col v) m) m
            = [(col, v)] := by
          simp [CondData.bound, CondData.paramsOf, hn]
        have htyp : CondData.typesOf
            (CondData.bound (CondData.NullableComparisonCondition op col v) m) m
            = .ok [(col, f.grpc_type)] := by
          simp [CondData.bound, CondData.typesOf, hn, h1]
        have hplace : placeholders (Model.aliasName m ++ "." ++ col ++ " " ++
            op.operator ++ " @" ++ col) = [col] :=
          placeholders_comparison (Model.aliasName m) col (NullOp.operator op)
            hw.2.1 (identName_of_lookup hw h1) (by cases op <;> decide)
        refine ⟨_, [(col, v)], [(col, f.grpc_type)],
          (sql_bound _ _).trans (congrArg Except.ok hsql),
          (params_bound _ _).trans (congrArg Except.ok hpar),
          (types_bound _ _).trans htyp, ?_, ?_⟩ <;>
          (intro x; rw [hplace]; simp)

/-- C1 witness: a `greater_than("number", 1)` condition bound to
`parentModel` has matching placeholder/params/types key sets. -/
theorem sql_params_types_witness :
    wfModel parentModel ∧
    (∃ s p t,
      Condition.sql (Condition.mk
        (.ComparisonCondition .GreaterThan "number" (.vInt 1)) (some parentModel)) = .ok s ∧
      Condition.params (Condition.mk
        (.ComparisonCondition .GreaterThan "number" (.vInt 1)) (some parentModel)) = .ok p ∧
      Condition.types (Condition.mk
        (.ComparisonCondition .GreaterThan "number" (.vInt 1)) (some parentModel)) = .ok t ∧
      (∀ x, x ∈ placeholders s ↔ x ∈ p.map Prod.fst) ∧
      (∀ x, x ∈ placeholders s ↔ x ∈ t.map Prod.fst)) := by
  constructor
  · exact ⟨by decide, by decide, by decide⟩
  · exact sql_params_types_key_sets_agree
      (.ComparisonCondition .GreaterThan "number" (.vInt 1)) none parentModel _
      ⟨by decide, by decide, by decide⟩ trivial rfl

end SpannerOrm
